import Mathlib

/-!
Verification development for the PROJECT_F3 pipeline system.

The repository splits into a TypeScript frontend (the `useAgent` hook and its
event types, present in the sources) and a Python backend (orchestrator,
intent classifier, rate limiter) whose behaviour is described by the spec and
by design documents in the repository; the backend implementation files are
not part of the available sources, so those components are modelled from the
spec, as marked on each definition.
-/

/-! ## Spec-side pipeline model -/

/-- Modelled from the spec: the classified branch of a run (§4.2).
The backend file `intent_classifier.py` is not among the sources. -/
inductive Intent
  | conversational
  | generative
  deriving DecidableEq, Repr

/-- The events a run can emit.  The first ten variants are modelled from the
spec: the closed event vocabulary of §3 (the backend orchestrator file
`orchestrator.py` is not among the sources, and the variants and their
fields follow §3 verbatim).  The eleventh, `filePersisted`, is embedded from
the orchestrator persistence code quoted verbatim in
`IMPLEMENTATION_SUMMARY.md`, which yields a `file.persisted` frame per saved
path into the same output stream — an emission §3's vocabulary omits. -/
inductive Event
  | pipelineStarted
  | intentClassified (intent : Intent)
  | contentDelta (text : String)
  | stagePhase (details : String)
  | planCompleted (paths : List String)
  | pathStarted (path : String)
  | artifactDelta (path text : String)
  | pathCompleted (path : String)
  | eventError (kind message : String)
  | pipelineCompleted (ok : Bool)
  | filePersisted (path : String)
  deriving DecidableEq, Repr

/-- Wire discriminant of an event: the required string field `event` of the
single JSON frame that transmits it (§6). -/
def Event.discriminant : Event → String
  | .pipelineStarted => "pipeline.started"
  | .intentClassified _ => "intent.classified"
  | .contentDelta _ => "content.delta"
  | .stagePhase _ => "stage.phase"
  | .planCompleted _ => "plan.completed"
  | .pathStarted _ => "path.started"
  | .artifactDelta _ _ => "artifact.delta"
  | .pathCompleted _ => "path.completed"
  | .eventError _ _ => "error"
  | .pipelineCompleted _ => "pipeline.completed"
  | .filePersisted _ => "file.persisted"

/-- Closed vocabulary of event discriminants enumerated by §3 of the spec. -/
def eventVocabulary : List String :=
  ["pipeline.started", "intent.classified", "content.delta", "stage.phase",
   "plan.completed", "path.started", "artifact.delta", "path.completed",
   "error", "pipeline.completed"]

/-- The discriminants the program actually emits: §3's closed vocabulary
plus the `file.persisted` persistence notification of the quoted
orchestrator code. -/
def emittedVocabulary : List String :=
  eventVocabulary ++ ["file.persisted"]

/-- Modelled from the spec: the intent router (§4.2).  `intent_classifier.py`
is not among the sources; the two recognized labels `chat` and `code` come
from the classifier prompt that is among the sources.  The argument is the
raw outcome of the external single-token generation call, `none` standing
for any failure or timeout; on failure or an unrecognized label the router
fails closed to `Conversational`. -/
def classify (raw : Option String) : Intent :=
  match raw with
  | none => .conversational
  | some s => if s = "code" then .generative else .conversational

/-- Modelled from the spec: a stage failure forwarded verbatim as an
in-stream `error(kind, message)` event (§4.3, §7). -/
structure Failure where
  kind : String
  message : String
  deriving DecidableEq, Repr

/-- Modelled from the spec: the external nondeterminism of one run — the raw
classifier output, the conversational stage's chunks or failure, the planning
stage's phase narration and produced path list or failure, and each path's
generated deltas or failure (§4.3, §5).  Fixing a `RunInput` fixes the run. -/
structure RunInput where
  classifierRaw : Option String
  chat : Except Failure (List String)
  phases : List String
  plan : Except Failure (List String)
  gen : String → Except Failure (List String)

/-- Modelled from the spec: the Conversing state of the orchestrator (§4.3);
the conversational stage streams `content.delta` events, then the run
completes, or it fails with a single error followed by
`pipeline.completed(ok=false)`. -/
def runConversational (chat : Except Failure (List String)) : List Event :=
  match chat with
  | .ok chunks => chunks.map Event.contentDelta ++ [Event.pipelineCompleted true]
  | .error f => [Event.eventError f.kind f.message, Event.pipelineCompleted false]

/-- Modelled from the spec: the Generating state (§4.3) — planned paths are
visited strictly sequentially; each path opens with `path.started`, streams
its deltas, and closes with `path.completed` before the next path starts; a
failing path emits one error then `pipeline.completed(ok=false)`.  `tail`
holds the events emitted after all paths generated successfully (the
persistence notifications and the terminal event, see `successTail`). -/
def genPaths (gen : String → Except Failure (List String)) (tail : List Event) :
    List String → List Event
  | [] => tail
  | p :: ps =>
    Event.pathStarted p ::
      match gen p with
      | .ok ds =>
        ds.map (Event.artifactDelta p) ++ Event.pathCompleted p :: genPaths gen tail ps
      | .error f => [Event.eventError f.kind f.message, Event.pipelineCompleted false]

/-- Embedded from the orchestrator persistence code quoted verbatim in
`IMPLEMENTATION_SUMMARY.md`: `file_contents` collects, in plan order,
exactly the paths for which at least one `code.chunk` delta arrived
(`file_contents[fp] = file_contents.get(fp, "") + content`), and after
generation the persistence loop saves each collected path.  These are the
paths for which a `file.persisted` event is yielded. -/
def persistedPaths (gen : String → Except Failure (List String)) :
    List String → List String
  | [] => []
  | p :: ps =>
    match gen p with
    | .ok ds => if ds.isEmpty then persistedPaths gen ps else p :: persistedPaths gen ps
    | .error _ => persistedPaths gen ps

/-- Events emitted after a fully successful generation, per the quoted
persistence loop: one `file.persisted` per collected path, then the terminal
`pipeline.completed(ok=true)`. -/
def successTail (gen : String → Except Failure (List String))
    (paths : List String) : List Event :=
  (persistedPaths gen paths).map Event.filePersisted ++ [Event.pipelineCompleted true]

/-- The Planning and Generating states: modelled from the spec (§4.3) — the
planning stage emits only `stage.phase` progress events, then exactly one
`plan.completed`, then generation runs, and a planning failure emits one
error then `pipeline.completed(ok=false)` — extended with the
`file.persisted` emissions of the orchestrator code quoted verbatim in
`IMPLEMENTATION_SUMMARY.md`, yielded after a fully successful generation. -/
def runGenerative (input : RunInput) : List Event :=
  input.phases.map Event.stagePhase ++
    match input.plan with
    | .ok paths =>
      Event.planCompleted paths ::
        genPaths input.gen (successTail input.gen paths) paths
    | .error f => [Event.eventError f.kind f.message, Event.pipelineCompleted false]

/-- Modelled from the spec: the pipeline orchestrator (§4.3).
`orchestrator.py` is not among the sources.  A run emits `pipeline.started`,
then `intent.classified` with the resolved branch, then the branch's stage
events. -/
def runPipeline (input : RunInput) : List Event :=
  Event.pipelineStarted ::
    Event.intentClassified (classify input.classifierRaw) ::
      match classify input.classifierRaw with
      | .conversational => runConversational input.chat
      | .generative => runGenerative input

/-- Number of `error` events in a stream. -/
def errorCount : List Event → Nat
  | [] => 0
  | .eventError _ _ :: evs => errorCount evs + 1
  | _ :: evs => errorCount evs

/-! ## C1 -/

lemma discriminant_mem_emitted (e : Event) : e.discriminant ∈ emittedVocabulary := by
  cases e <;> simp [Event.discriminant, emittedVocabulary, eventVocabulary]

/-- C1 counterexample: on a concrete successful generative run the
orchestrator's persistence loop (quoted verbatim in
`IMPLEMENTATION_SUMMARY.md`) yields a `file.persisted` event into the output
stream, and that discriminant is outside the closed §3 vocabulary — so it is
false that no event with a discriminant outside §3's set is ever produced. -/
theorem filePersisted_emitted_outside_spec_vocabulary :
    Event.filePersisted "lib/main.dart" ∈
        runPipeline ⟨some "code", .ok [], [], .ok ["lib/main.dart"],
          fun _ => .ok ["x"]⟩ ∧
      (Event.filePersisted "lib/main.dart").discriminant ∉ eventVocabulary :=
  ⟨by decide, by decide⟩

/-- C1 (amended): every event transmitted on a run's output stream carries a
discriminant drawn from spec §3's closed vocabulary extended by the one
persistence notification `file.persisted` that the orchestrator yields after
generation; no discriminant outside this extended set is ever produced. -/
theorem runPipeline_discriminants_in_emitted_vocabulary (input : RunInput)
    (e : Event) (he : e ∈ runPipeline input) :
    e.discriminant ∈ emittedVocabulary :=
  discriminant_mem_emitted e

/-- Witness for the amended C1 at the concrete generative run whose stream
contains a `file.persisted` event. -/
theorem runPipeline_discriminants_in_emitted_vocabulary_witness :
    Event.filePersisted "lib/main.dart" ∈
        runPipeline ⟨some "code", .ok [], [], .ok ["lib/main.dart"],
          fun _ => .ok ["x"]⟩ ∧
      (Event.filePersisted "lib/main.dart").discriminant ∈ emittedVocabulary :=
  ⟨by decide,
   runPipeline_discriminants_in_emitted_vocabulary
     ⟨some "code", .ok [], [], .ok ["lib/main.dart"], fun _ => .ok ["x"]⟩
     (Event.filePersisted "lib/main.dart") (by decide)⟩

/-! ## C2 -/

/-- Some stage of the run cannot proceed: the conversational stage fails on a
conversational run, or planning fails, or some planned path's generation
fails on a generative run. -/
def stageFails (input : RunInput) : Prop :=
  (classify input.classifierRaw = .conversational ∧ ∃ f, input.chat = .error f) ∨
    (classify input.classifierRaw = .generative ∧
      ((∃ f, input.plan = .error f) ∨
        ∃ paths, input.plan = .ok paths ∧ ∃ p ∈ paths, ∃ f, input.gen p = .error f))

lemma errorCount_append (a b : List Event) :
    errorCount (a ++ b) = errorCount a + errorCount b := by
  induction a with
  | nil => simp [errorCount]
  | cons e a ih => cases e <;> simp [errorCount, ih] <;> omega

lemma errorCount_map_contentDelta (cs : List String) :
    errorCount (cs.map Event.contentDelta) = 0 := by
  induction cs with
  | nil => rfl
  | cons c cs ih => simpa [errorCount] using ih

lemma errorCount_map_artifactDelta (p : String) (ds : List String) :
    errorCount (ds.map (Event.artifactDelta p)) = 0 := by
  induction ds with
  | nil => rfl
  | cons d ds ih => simpa [errorCount] using ih

lemma errorCount_map_stagePhase (ph : List String) :
    errorCount (ph.map Event.stagePhase) = 0 := by
  induction ph with
  | nil => rfl
  | cons d ds ih => simpa [errorCount] using ih

lemma genPaths_failure (gen : String → Except Failure (List String))
    (tail : List Event) (paths : List String)
    (h : ∃ p ∈ paths, ∃ f, gen p = .error f) :
    ∃ pre k m, genPaths gen tail paths =
        pre ++ [Event.eventError k m, Event.pipelineCompleted false] ∧
      errorCount pre = 0 := by
  induction paths with
  | nil => simp at h
  | cons p ps ih =>
    cases hg : gen p with
    | error f =>
      refine ⟨[Event.pathStarted p], f.kind, f.message, ?_, rfl⟩
      simp [genPaths, hg]
    | ok ds =>
      have hps : ∃ q ∈ ps, ∃ f, gen q = .error f := by
        obtain ⟨q, hq, f, hf⟩ := h
        rcases List.mem_cons.mp hq with rfl | hq'
        · rw [hg] at hf; cases hf
        · exact ⟨q, hq', f, hf⟩
      obtain ⟨pre, k, m, heq, hz⟩ := ih hps
      refine ⟨Event.pathStarted p :: ds.map (Event.artifactDelta p) ++
        Event.pathCompleted p :: pre, k, m, ?_, ?_⟩
      · simp [genPaths, hg, heq]
      · rw [show (Event.pathCompleted p :: pre) = [Event.pathCompleted p] ++ pre by rfl]
        rw [show Event.pathStarted p :: ds.map (Event.artifactDelta p) ++
            ([Event.pathCompleted p] ++ pre) =
            (Event.pathStarted p :: ds.map (Event.artifactDelta p)) ++
              ([Event.pathCompleted p] ++ pre) by rfl]
        rw [errorCount_append, errorCount_append]
        rw [show errorCount (Event.pathStarted p :: ds.map (Event.artifactDelta p)) =
            errorCount (ds.map (Event.artifactDelta p)) by rfl]
        rw [errorCount_map_artifactDelta, hz]
        rfl

/-- C2: whenever some stage cannot proceed, the run's stream is a prefix with
no error events followed by exactly one `error(kind, message)` event and then
the terminal `pipeline.completed(ok=false)`; in particular the whole stream
carries exactly one error event, and the run (a total function) terminates
cleanly. -/
theorem runPipeline_failure_single_error_then_not_ok (input : RunInput)
    (h : stageFails input) :
    ∃ pre k m, runPipeline input =
        pre ++ [Event.eventError k m, Event.pipelineCompleted false] ∧
      errorCount pre = 0 ∧ errorCount (runPipeline input) = 1 := by
  have last2 : ∀ k m, errorCount [Event.eventError k m, Event.pipelineCompleted false] = 1 := by
    intro k m; rfl
  rcases h with ⟨hc, f, hf⟩ | ⟨hc, hrest⟩
  · refine ⟨[Event.pipelineStarted, Event.intentClassified .conversational],
      f.kind, f.message, ?_, rfl, ?_⟩
    · simp [runPipeline, hc, runConversational, hf]
    · simp [runPipeline, hc, runConversational, hf, errorCount]
  · rcases hrest with ⟨f, hf⟩ | ⟨paths, hpl, hgenf⟩
    · refine ⟨Event.pipelineStarted :: Event.intentClassified .generative ::
        input.phases.map Event.stagePhase, f.kind, f.message, ?_, ?_, ?_⟩
      · simp [runPipeline, hc, runGenerative, hf]
      · rw [show errorCount (Event.pipelineStarted :: Event.intentClassified .generative ::
            input.phases.map Event.stagePhase) =
            errorCount (input.phases.map Event.stagePhase) by rfl]
        exact errorCount_map_stagePhase _
      · rw [runPipeline, hc]
        rw [show errorCount (Event.pipelineStarted :: Event.intentClassified .generative ::
            runGenerative input) = errorCount (runGenerative input) by rfl]
        rw [runGenerative, hf, errorCount_append, errorCount_map_stagePhase]
        rfl
    · obtain ⟨pre, k, m, heq, hz⟩ :=
        genPaths_failure input.gen (successTail input.gen paths) paths hgenf
      refine ⟨Event.pipelineStarted :: Event.intentClassified .generative ::
        input.phases.map Event.stagePhase ++ Event.planCompleted paths :: pre,
        k, m, ?_, ?_, ?_⟩
      · simp [runPipeline, hc, runGenerative, hpl, heq]
      · rw [errorCount_append]
        rw [show errorCount (Event.pipelineStarted :: Event.intentClassified .generative ::
            input.phases.map Event.stagePhase) =
            errorCount (input.phases.map Event.stagePhase) by rfl]
        rw [errorCount_map_stagePhase]
        rw [show errorCount (Event.planCompleted paths :: pre) = errorCount pre by rfl]
        rw [hz]
      · rw [runPipeline, hc]
        rw [show errorCount (Event.pipelineStarted :: Event.intentClassified .generative ::
            runGenerative input) = errorCount (runGenerative input) by rfl]
        rw [runGenerative, hpl, errorCount_append, errorCount_map_stagePhase]
        rw [show errorCount (Event.planCompleted paths ::
            genPaths input.gen (successTail input.gen paths) paths) =
            errorCount (genPaths input.gen (successTail input.gen paths) paths) by rfl]
        rw [heq, errorCount_append, hz, last2]

/-- Witness for C2 at a concrete run whose conversational stage times out. -/
theorem runPipeline_failure_single_error_then_not_ok_witness :
    ∃ pre k m,
      runPipeline ⟨some "chat", .error ⟨"StageTimeout", "t"⟩, [], .ok [],
          fun _ => .ok []⟩ =
        pre ++ [Event.eventError k m, Event.pipelineCompleted false] ∧
      errorCount pre = 0 ∧
      errorCount (runPipeline ⟨some "chat", .error ⟨"StageTimeout", "t"⟩, [],
        .ok [], fun _ => .ok []⟩) = 1 :=
  runPipeline_failure_single_error_then_not_ok
    ⟨some "chat", .error ⟨"StageTimeout", "t"⟩, [], .ok [], fun _ => .ok []⟩
    (Or.inl ⟨rfl, ⟨"StageTimeout", "t"⟩, rfl⟩)

/-! ## C3 -/

/-- Ordered list of paths announced by `path.started` events in a stream. -/
def startedPaths (evs : List Event) : List String :=
  evs.filterMap fun e => match e with
    | .pathStarted p => some p
    | _ => none

/-- Ordered list of paths closed by `path.completed` events in a stream. -/
def completedPaths (evs : List Event) : List String :=
  evs.filterMap fun e => match e with
    | .pathCompleted p => some p
    | _ => none

/-- Strict sequential-visit checker: scanning the stream with the currently
open path, a `path.started` may occur only with no path open, every
`artifact.delta` and the closing `path.completed` must name the open path,
and while a path is open no other event may intervene; at the end no path
remains open.  `true` means no two paths are ever open simultaneously and
every open path is closed before the next starts. -/
def wellSequenced : List Event → Option String → Bool
  | [], cur => cur.isNone
  | e :: evs, none =>
    match e with
    | .pathStarted p => wellSequenced evs (some p)
    | .artifactDelta _ _ => false
    | .pathCompleted _ => false
    | _ => wellSequenced evs none
  | e :: evs, some p =>
    match e with
    | .artifactDelta q _ => q == p && wellSequenced evs (some p)
    | .pathCompleted q => q == p && wellSequenced evs none
    | _ => false

lemma startedPaths_map_artifactDelta (p : String) (ds : List String) :
    startedPaths (ds.map (Event.artifactDelta p)) = [] := by
  induction ds with
  | nil => rfl
  | cons d ds ih => simpa [startedPaths] using ih

lemma completedPaths_map_artifactDelta (p : String) (ds : List String) :
    completedPaths (ds.map (Event.artifactDelta p)) = [] := by
  induction ds with
  | nil => rfl
  | cons d ds ih => simpa [completedPaths] using ih

lemma startedPaths_map_stagePhase (ph : List String) :
    startedPaths (ph.map Event.stagePhase) = [] := by
  induction ph with
  | nil => rfl
  | cons d ds ih => simpa [startedPaths] using ih

lemma completedPaths_map_stagePhase (ph : List String) :
    completedPaths (ph.map Event.stagePhase) = [] := by
  induction ph with
  | nil => rfl
  | cons d ds ih => simpa [completedPaths] using ih

lemma wellSequenced_deltas (p : String) (ds : List String) (tail : List Event) :
    wellSequenced (ds.map (Event.artifactDelta p) ++ tail) (some p) =
      wellSequenced tail (some p) := by
  induction ds with
  | nil => rfl
  | cons d ds ih => simpa [wellSequenced] using ih

lemma wellSequenced_phases (ph : List String) (tail : List Event) :
    wellSequenced (ph.map Event.stagePhase ++ tail) none =
      wellSequenced tail none := by
  induction ph with
  | nil => rfl
  | cons d ds ih => simpa [wellSequenced] using ih

lemma startedPaths_map_filePersisted (pers : List String) :
    startedPaths (pers.map Event.filePersisted) = [] := by
  induction pers with
  | nil => rfl
  | cons d ds ih => simpa [startedPaths] using ih

lemma completedPaths_map_filePersisted (pers : List String) :
    completedPaths (pers.map Event.filePersisted) = [] := by
  induction pers with
  | nil => rfl
  | cons d ds ih => simpa [completedPaths] using ih

lemma wellSequenced_map_filePersisted (pers : List String) (tail : List Event) :
    wellSequenced (pers.map Event.filePersisted ++ tail) none =
      wellSequenced tail none := by
  induction pers with
  | nil => rfl
  | cons d ds ih => simpa [wellSequenced] using ih

lemma startedPaths_successTail (gen : String → Except Failure (List String))
    (paths : List String) : startedPaths (successTail gen paths) = [] := by
  rw [successTail, startedPaths, List.filterMap_append]
  have h1 := startedPaths_map_filePersisted (persistedPaths gen paths)
  rw [startedPaths] at h1
  rw [h1]
  rfl

lemma completedPaths_successTail (gen : String → Except Failure (List String))
    (paths : List String) : completedPaths (successTail gen paths) = [] := by
  rw [successTail, completedPaths, List.filterMap_append]
  have h1 := completedPaths_map_filePersisted (persistedPaths gen paths)
  rw [completedPaths] at h1
  rw [h1]
  rfl

lemma wellSequenced_successTail (gen : String → Except Failure (List String))
    (paths : List String) : wellSequenced (successTail gen paths) none = true := by
  rw [successTail, wellSequenced_map_filePersisted]
  rfl

lemma genPaths_ok_paths (gen : String → Except Failure (List String))
    (tail : List Event) (paths : List String)
    (h : ∀ p ∈ paths, ∃ ds, gen p = .ok ds)
    (ht1 : startedPaths tail = []) (ht2 : completedPaths tail = [])
    (ht3 : wellSequenced tail none = true) :
    startedPaths (genPaths gen tail paths) = paths ∧
      completedPaths (genPaths gen tail paths) = paths ∧
      wellSequenced (genPaths gen tail paths) none = true := by
  induction paths with
  | nil => exact ⟨ht1, ht2, ht3⟩
  | cons p ps ih =>
    obtain ⟨ds, hds⟩ := h p (List.mem_cons_self p ps)
    obtain ⟨ihs, ihc, ihw⟩ := ih fun q hq => h q (List.mem_cons_of_mem p hq)
    refine ⟨?_, ?_, ?_⟩
    · simp [genPaths, hds, startedPaths, List.filterMap_append] at ihs ⊢
      have := startedPaths_map_artifactDelta p ds
      simp [startedPaths] at this
      simp [this, ihs]
    · simp [genPaths, hds, completedPaths, List.filterMap_append] at ihc ⊢
      have := completedPaths_map_artifactDelta p ds
      simp [completedPaths] at this
      simp [this, ihc]
    · show wellSequenced (genPaths gen tail (p :: ps)) none = true
      rw [genPaths, hds]
      rw [show wellSequenced (Event.pathStarted p ::
          (ds.map (Event.artifactDelta p) ++
            Event.pathCompleted p :: genPaths gen tail ps)) none =
          wellSequenced (ds.map (Event.artifactDelta p) ++
            Event.pathCompleted p :: genPaths gen tail ps) (some p) by rfl]
      rw [wellSequenced_deltas]
      rw [show wellSequenced (Event.pathCompleted p :: genPaths gen tail ps) (some p) =
          ((p == p) && wellSequenced (genPaths gen tail ps) none) by rfl]
      simp [ihw]

/-- C3: for a Generative run in which every planned path generates
successfully, the sequence of `path.started` paths equals the ordered
`plan.completed` path list, the sequence of `path.completed` paths equals it
as well, the stream is strictly sequential (no two paths open at once, each
opened path closed before the next opens), and each planned path is visited
exactly once. -/
theorem runPipeline_generative_paths_match_plan (input : RunInput)
    (paths : List String) (hc : classify input.classifierRaw = .generative)
    (hpl : input.plan = .ok paths)
    (hgen : ∀ p ∈ paths, ∃ ds, input.gen p = .ok ds)
    (hnd : paths.Nodup) :
    startedPaths (runPipeline input) = paths ∧
      completedPaths (runPipeline input) = paths ∧
      wellSequenced (runPipeline input) none = true ∧
      ∀ p ∈ paths, (startedPaths (runPipeline input)).count p = 1 := by
  obtain ⟨hs, hcp, hw⟩ := genPaths_ok_paths input.gen
    (successTail input.gen paths) paths hgen
    (startedPaths_successTail input.gen paths)
    (completedPaths_successTail input.gen paths)
    (wellSequenced_successTail input.gen paths)
  have hrun : runPipeline input =
      Event.pipelineStarted :: Event.intentClassified .generative ::
        (input.phases.map Event.stagePhase ++
          Event.planCompleted paths ::
            genPaths input.gen (successTail input.gen paths) paths) := by
    simp [runPipeline, hc, runGenerative, hpl]
  have key : ∀ G : List Event,
      startedPaths (Event.pipelineStarted :: Event.intentClassified .generative ::
        (input.phases.map Event.stagePhase ++ Event.planCompleted paths :: G)) =
        startedPaths G ∧
      completedPaths (Event.pipelineStarted :: Event.intentClassified .generative ::
        (input.phases.map Event.stagePhase ++ Event.planCompleted paths :: G)) =
        completedPaths G ∧
      wellSequenced (Event.pipelineStarted :: Event.intentClassified .generative ::
        (input.phases.map Event.stagePhase ++ Event.planCompleted paths :: G)) none =
        wellSequenced G none := by
    intro G
    refine ⟨?_, ?_, ?_⟩
    · rw [show startedPaths (Event.pipelineStarted ::
          Event.intentClassified .generative ::
          (input.phases.map Event.stagePhase ++ Event.planCompleted paths :: G)) =
          startedPaths (input.phases.map Event.stagePhase ++
            Event.planCompleted paths :: G) by rfl]
      rw [startedPaths, List.filterMap_append]
      have h1 := startedPaths_map_stagePhase input.phases
      rw [startedPaths] at h1
      rw [h1]
      rw [show (List.filterMap (fun e => match e with
          | Event.pathStarted p => some p
          | _ => none) (Event.planCompleted paths :: G)) = startedPaths G by rfl]
      rfl
    · rw [show completedPaths (Event.pipelineStarted ::
          Event.intentClassified .generative ::
          (input.phases.map Event.stagePhase ++ Event.planCompleted paths :: G)) =
          completedPaths (input.phases.map Event.stagePhase ++
            Event.planCompleted paths :: G) by rfl]
      rw [completedPaths, List.filterMap_append]
      have h1 := completedPaths_map_stagePhase input.phases
      rw [completedPaths] at h1
      rw [h1]
      rw [show (List.filterMap (fun e => match e with
          | Event.pathCompleted p => some p
          | _ => none) (Event.planCompleted paths :: G)) = completedPaths G by rfl]
      rfl
    · rw [show wellSequenced (Event.pipelineStarted ::
          Event.intentClassified .generative ::
          (input.phases.map Event.stagePhase ++ Event.planCompleted paths :: G)) none =
          wellSequenced (input.phases.map Event.stagePhase ++
            Event.planCompleted paths :: G) none by rfl]
      rw [wellSequenced_phases]
      rw [show wellSequenced (Event.planCompleted paths :: G) none =
          wellSequenced G none by rfl]
  obtain ⟨k1, k2, k3⟩ := key (genPaths input.gen (successTail input.gen paths) paths)
  have hstarted : startedPaths (runPipeline input) = paths := by
    rw [hrun, k1, hs]
  refine ⟨hstarted, ?_, ?_, ?_⟩
  · rw [hrun, k2, hcp]
  · rw [hrun, k3, hw]
  · intro p hp
    rw [hstarted]
    exact List.count_eq_one_of_mem hnd hp

/-- Witness for C3 at a concrete two-path generative run. -/
theorem runPipeline_generative_paths_match_plan_witness :
    startedPaths (runPipeline ⟨some "code", .ok [], ["analyzing"],
        .ok ["lib/main.dart", "pubspec.yaml"], fun p => .ok [p]⟩) =
      ["lib/main.dart", "pubspec.yaml"] ∧
    completedPaths (runPipeline ⟨some "code", .ok [], ["analyzing"],
        .ok ["lib/main.dart", "pubspec.yaml"], fun p => .ok [p]⟩) =
      ["lib/main.dart", "pubspec.yaml"] ∧
    wellSequenced (runPipeline ⟨some "code", .ok [], ["analyzing"],
        .ok ["lib/main.dart", "pubspec.yaml"], fun p => .ok [p]⟩) none = true ∧
    ∀ p ∈ ["lib/main.dart", "pubspec.yaml"],
      (startedPaths (runPipeline ⟨some "code", .ok [], ["analyzing"],
        .ok ["lib/main.dart", "pubspec.yaml"], fun p => .ok [p]⟩)).count p = 1 :=
  runPipeline_generative_paths_match_plan
    ⟨some "code", .ok [], ["analyzing"], .ok ["lib/main.dart", "pubspec.yaml"],
      fun p => .ok [p]⟩
    ["lib/main.dart", "pubspec.yaml"] rfl rfl (fun p _ => ⟨[p], rfl⟩) (by decide)

/-! ## C7 -/

/-- Every stage that the run may enter succeeds: the conversational stage has
chunks and the plan with all its paths generates. -/
def stagesOk (input : RunInput) : Prop :=
  (∃ cs, input.chat = .ok cs) ∧
    ∃ paths, input.plan = .ok paths ∧ ∀ p ∈ paths, ∃ ds, input.gen p = .ok ds

lemma errorCount_map_filePersisted (pers : List String) :
    errorCount (pers.map Event.filePersisted) = 0 := by
  induction pers with
  | nil => rfl
  | cons d ds ih => simpa [errorCount] using ih

lemma errorCount_successTail (gen : String → Except Failure (List String))
    (paths : List String) : errorCount (successTail gen paths) = 0 := by
  rw [successTail, errorCount_append, errorCount_map_filePersisted]
  rfl

lemma errorCount_genPaths_ok (gen : String → Except Failure (List String))
    (tail : List Event) (paths : List String)
    (h : ∀ p ∈ paths, ∃ ds, gen p = .ok ds) :
    errorCount (genPaths gen tail paths) = errorCount tail := by
  induction paths with
  | nil => rfl
  | cons p ps ih =>
    obtain ⟨ds, hds⟩ := h p (List.mem_cons_self p ps)
    rw [genPaths, hds]
    rw [show errorCount (Event.pathStarted p ::
        (ds.map (Event.artifactDelta p) ++
          Event.pathCompleted p :: genPaths gen tail ps)) =
        errorCount (ds.map (Event.artifactDelta p) ++
          Event.pathCompleted p :: genPaths gen tail ps) by rfl]
    rw [errorCount_append, errorCount_map_artifactDelta]
    rw [show errorCount (Event.pathCompleted p :: genPaths gen tail ps) =
        errorCount (genPaths gen tail ps) by rfl]
    rw [Nat.zero_add]
    exact ih fun q hq => h q (List.mem_cons_of_mem p hq)

/-- C7: the intent router is total and fails closed — on a missing or failed
classifier output it resolves to `Conversational`, on any output outside the
two recognized labels it resolves to `Conversational`, every output resolves
to one of the two branches, and a classification failure is never surfaced
as an error event: a run whose stages succeed emits zero error events no
matter what the classifier returned. -/
theorem classify_fails_closed :
    classify none = .conversational ∧
      (∀ s, s ≠ "chat" → s ≠ "code" → classify (some s) = .conversational) ∧
      (∀ raw, classify raw = .conversational ∨ classify raw = .generative) ∧
      ∀ input : RunInput, stagesOk input → errorCount (runPipeline input) = 0 := by
  refine ⟨rfl, ?_, ?_, ?_⟩
  · intro s _ hcode
    simp [classify, hcode]
  · intro raw
    cases h : classify raw with
    | conversational => exact Or.inl rfl
    | generative => exact Or.inr rfl
  · intro input ⟨⟨cs, hchat⟩, paths, hpl, hgen⟩
    rw [runPipeline]
    cases hcl : classify input.classifierRaw with
    | conversational =>
      rw [show errorCount (Event.pipelineStarted ::
          Event.intentClassified .conversational :: runConversational input.chat) =
          errorCount (runConversational input.chat) by rfl]
      rw [hchat]
      rw [show runConversational (Except.ok cs) =
          cs.map Event.contentDelta ++ [Event.pipelineCompleted true] from rfl]
      rw [errorCount_append, errorCount_map_contentDelta]
      rfl
    | generative =>
      rw [show errorCount (Event.pipelineStarted ::
          Event.intentClassified .generative :: runGenerative input) =
          errorCount (runGenerative input) by rfl]
      rw [runGenerative, hpl, errorCount_append, errorCount_map_stagePhase]
      rw [show errorCount (Event.planCompleted paths ::
          genPaths input.gen (successTail input.gen paths) paths) =
          errorCount (genPaths input.gen (successTail input.gen paths) paths) by rfl]
      rw [Nat.zero_add]
      rw [errorCount_genPaths_ok input.gen (successTail input.gen paths) paths hgen]
      exact errorCount_successTail input.gen paths

/-- Witness for C7: an unrecognized classifier label falls back to
`Conversational`, and a run with a garbage classifier output but healthy
stages emits no error event. -/
theorem classify_fails_closed_witness :
    classify (some "banana") = .conversational ∧
      errorCount (runPipeline ⟨some "banana", .ok ["hello"], [], .ok [],
        fun _ => .ok []⟩) = 0 :=
  ⟨classify_fails_closed.2.1 "banana" (by decide) (by decide),
   classify_fails_closed.2.2.2
     ⟨some "banana", .ok ["hello"], [], .ok [], fun _ => .ok []⟩
     ⟨⟨["hello"], rfl⟩, [], rfl, fun p hp => absurd hp (List.not_mem_nil p)⟩⟩

/-! ## Admission controller model (C5, C6) -/

/-- Modelled from the spec: one fixed window of a `RateBucket` (§3, §4.1).
The backend file `rate_limiter.py` is not among the sources; field names
follow the spec's `{count, windowStart}` (times in seconds). -/
structure Window where
  count : Nat
  windowStart : Nat
  deriving DecidableEq, Repr

/-- Modelled from the spec: the per-identity `RateBucket` — two independent
counters, a minute window and an hour window (§3). -/
structure RateBucket where
  minute : Window
  hour : Window
  deriving DecidableEq, Repr

/-- Modelled from the spec: the two independently configured limits and
window lengths (§4.1; e.g. 10 per 60 s and 100 per 3600 s per the testing
documents). -/
structure RateLimits where
  minuteLimit : Nat
  hourLimit : Nat
  minuteLen : Nat
  hourLen : Nat
  deriving DecidableEq, Repr

/-- Outcome of an admission `check` (§4.1): `Allow`, or `Deny` carrying
`retryAfterSeconds`. -/
inductive CheckResult
  | allow
  | deny (retryAfterSeconds : Nat)
  deriving DecidableEq, Repr

/-- Modelled from the spec: on `check`, a window whose length has elapsed is
reset to `count = 0, windowStart = now` before evaluating (§4.1). -/
def resetWindow (len now : Nat) (w : Window) : Window :=
  if len ≤ now - w.windowStart then ⟨0, now⟩ else w

/-- Remaining wait of a window: `windowLength - (now - windowStart)`. -/
def remainingWait (len now : Nat) (w : Window) : Nat :=
  len - (now - w.windowStart)

/-- Modelled from the spec: the `retryAfterSeconds` reported on `Deny` — the
remaining wait of the most exhausted window, the exhausted window with the
largest remaining wait (§4.1). -/
def denyRetry (L : RateLimits) (m h : Window) (now : Nat) : Nat :=
  max (if L.minuteLimit ≤ m.count then remainingWait L.minuteLen now m else 0)
    (if L.hourLimit ≤ h.count then remainingWait L.hourLen now h else 0)

/-- Modelled from the spec: the fixed-window admission check (§4.1).  Both
windows are first reset if elapsed; if either window's count has reached its
limit the check denies with the most exhausted window's remaining wait and
no count changes; otherwise both counts increment and the check allows. -/
def check (L : RateLimits) (b : RateBucket) (now : Nat) : CheckResult × RateBucket :=
  let m := resetWindow L.minuteLen now b.minute
  let h := resetWindow L.hourLen now b.hour
  if L.minuteLimit ≤ m.count ∨ L.hourLimit ≤ h.count then
    (.deny (denyRetry L m h now), ⟨m, h⟩)
  else
    (.allow, ⟨⟨m.count + 1, m.windowStart⟩, ⟨h.count + 1, h.windowStart⟩⟩)

/-- Sequence of `check` calls at the given times, threading the bucket. -/
def checkTimes (L : RateLimits) (b : RateBucket) :
    List Nat → List CheckResult × RateBucket
  | [] => ([], b)
  | t :: ts =>
    let step := check L b t
    let rest := checkTimes L step.2 ts
    (step.1 :: rest.1, rest.2)

/-- Fresh bucket of an identity first seen at time `t0`: both windows empty
and anchored at `t0`. -/
def freshBucket (t0 : Nat) : RateBucket :=
  ⟨⟨0, t0⟩, ⟨0, t0⟩⟩

lemma resetWindow_not_elapsed (len now : Nat) (w : Window)
    (h : now - w.windowStart < len) : resetWindow len now w = w := by
  simp [resetWindow, Nat.not_le.mpr h]

lemma check_allow_of_room (L : RateLimits) (c t0 now : Nat)
    (hm : now - t0 < L.minuteLen) (hh : now - t0 < L.hourLen)
    (hcm : c < L.minuteLimit) (hch : c < L.hourLimit) :
    check L ⟨⟨c, t0⟩, ⟨c, t0⟩⟩ now =
      (.allow, ⟨⟨c + 1, t0⟩, ⟨c + 1, t0⟩⟩) := by
  rw [check]
  rw [show resetWindow L.minuteLen now ⟨c, t0⟩ = ⟨c, t0⟩ from
    resetWindow_not_elapsed _ _ _ hm]
  rw [show resetWindow L.hourLen now ⟨c, t0⟩ = ⟨c, t0⟩ from
    resetWindow_not_elapsed _ _ _ hh]
  simp [Nat.not_le.mpr hcm, Nat.not_le.mpr hch]

lemma checkTimes_all_allow (L : RateLimits) (t0 : Nat) (ts : List Nat) (c : Nat)
    (hin : ∀ t ∈ ts, t - t0 < L.minuteLen ∧ t - t0 < L.hourLen)
    (hm : c + ts.length ≤ L.minuteLimit) (hh : c + ts.length ≤ L.hourLimit) :
    checkTimes L ⟨⟨c, t0⟩, ⟨c, t0⟩⟩ ts =
      (List.replicate ts.length .allow, ⟨⟨c + ts.length, t0⟩, ⟨c + ts.length, t0⟩⟩) := by
  induction ts generalizing c with
  | nil => simp [checkTimes]
  | cons t ts ih =>
    obtain ⟨h1, h2⟩ := hin t (List.mem_cons_self t ts)
    have hcm : c < L.minuteLimit := by simp at hm; omega
    have hch : c < L.hourLimit := by simp at hh; omega
    rw [checkTimes]
    rw [check_allow_of_room L c t0 t h1 h2 hcm hch]
    rw [ih (c + 1) (fun u hu => hin u (List.mem_cons_of_mem t hu))
      (by simp at hm ⊢; omega) (by simp at hh ⊢; omega)]
    simp [List.replicate_succ]
    omega

/-! ## C5 -/

/-- C5: for an identity first seen at `t0` with minute limit `N` (the hour
limit being slacker), the first `N` checks within the minute window all
return `Allow`, the `(N+1)`-th check within the same window returns `Deny`
(with the minute window's remaining wait), and once the window length has
elapsed since the window start the next check returns `Allow` again. -/
theorem check_window_limit_deny_and_reset (L : RateLimits) (t0 : Nat)
    (ts : List Nat) (tD : Nat)
    (hlen : ts.length = L.minuteLimit)
    (hpos : 0 < L.minuteLimit)
    (hlt : L.minuteLimit < L.hourLimit)
    (hin : ∀ t ∈ ts, t - t0 < L.minuteLen ∧ t - t0 < L.hourLen)
    (hD : tD - t0 < L.minuteLen ∧ tD - t0 < L.hourLen) :
    (checkTimes L (freshBucket t0) ts).1 =
        List.replicate L.minuteLimit CheckResult.allow ∧
      (check L (checkTimes L (freshBucket t0) ts).2 tD).1 =
        CheckResult.deny (L.minuteLen - (tD - t0)) ∧
      (check L (check L (checkTimes L (freshBucket t0) ts).2 tD).2
        (t0 + L.minuteLen)).1 = CheckResult.allow := by
  have hall := checkTimes_all_allow L t0 ts 0
    hin (by omega) (by omega)
  rw [Nat.zero_add] at hall
  have hseq : checkTimes L (freshBucket t0) ts =
      (List.replicate ts.length .allow,
        ⟨⟨ts.length, t0⟩, ⟨ts.length, t0⟩⟩) := hall
  have hdeny : check L ⟨⟨ts.length, t0⟩, ⟨ts.length, t0⟩⟩ tD =
      (.deny (L.minuteLen - (tD - t0)), ⟨⟨ts.length, t0⟩, ⟨ts.length, t0⟩⟩) := by
    rw [check]
    rw [show resetWindow L.minuteLen tD ⟨ts.length, t0⟩ = ⟨ts.length, t0⟩ from
      resetWindow_not_elapsed _ _ _ hD.1]
    rw [show resetWindow L.hourLen tD ⟨ts.length, t0⟩ = ⟨ts.length, t0⟩ from
      resetWindow_not_elapsed _ _ _ hD.2]
    have hmle : L.minuteLimit ≤ ts.length := le_of_eq hlen.symm
    have hhnot : ¬ L.hourLimit ≤ ts.length := by omega
    simp [hmle, hhnot, denyRetry, remainingWait]
  have check_allow_any : ∀ (b : RateBucket) (now : Nat),
      (resetWindow L.minuteLen now b.minute).count < L.minuteLimit →
      (resetWindow L.hourLen now b.hour).count < L.hourLimit →
      (check L b now).1 = .allow := by
    intro b now h1 h2
    rw [check]
    have hc : ¬(L.minuteLimit ≤ (resetWindow L.minuteLen now b.minute).count ∨
        L.hourLimit ≤ (resetWindow L.hourLen now b.hour).count) := by omega
    simp [hc]
  refine ⟨by rw [hseq, hlen], ?_, ?_⟩
  · rw [hseq, hdeny]
  · rw [hseq, hdeny]
    apply check_allow_any
    · rw [show resetWindow L.minuteLen (t0 + L.minuteLen)
          (⟨⟨ts.length, t0⟩, ⟨ts.length, t0⟩⟩ : RateBucket).minute =
          ⟨0, t0 + L.minuteLen⟩ by simp [resetWindow]]
      exact hpos
    · by_cases hhr : L.hourLen ≤ (t0 + L.minuteLen) - t0
      · have e1 : resetWindow L.hourLen (t0 + L.minuteLen)
            (⟨⟨ts.length, t0⟩, ⟨ts.length, t0⟩⟩ : RateBucket).hour =
            ⟨0, t0 + L.minuteLen⟩ := by
          show (if L.hourLen ≤ (t0 + L.minuteLen) - t0 then (⟨0, t0 + L.minuteLen⟩ : Window)
            else ⟨ts.length, t0⟩) = ⟨0, t0 + L.minuteLen⟩
          rw [if_pos hhr]
        rw [e1]
        show 0 < L.hourLimit
        omega
      · rw [show resetWindow L.hourLen (t0 + L.minuteLen)
            (⟨⟨ts.length, t0⟩, ⟨ts.length, t0⟩⟩ : RateBucket).hour =
            ⟨ts.length, t0⟩ from resetWindow_not_elapsed _ _ _ (Nat.not_le.mp hhr)]
        show ts.length < L.hourLimit
        omega

/-- Witness for C5 with limits 2 per 60 s and 5 per 3600 s: two allows at
times 0 and 10, a deny with retry 40 at time 20, and an allow at time 60. -/
theorem check_window_limit_deny_and_reset_witness :
    (checkTimes ⟨2, 5, 60, 3600⟩ (freshBucket 0) [0, 10]).1 =
        List.replicate 2 CheckResult.allow ∧
      (check ⟨2, 5, 60, 3600⟩ (checkTimes ⟨2, 5, 60, 3600⟩ (freshBucket 0) [0, 10]).2
        20).1 = CheckResult.deny (60 - (20 - 0)) ∧
      (check ⟨2, 5, 60, 3600⟩
        (check ⟨2, 5, 60, 3600⟩
          (checkTimes ⟨2, 5, 60, 3600⟩ (freshBucket 0) [0, 10]).2 20).2
        (0 + 60)).1 = CheckResult.allow :=
  check_window_limit_deny_and_reset ⟨2, 5, 60, 3600⟩ 0 [0, 10] 20
    rfl (by decide) (by decide) (by decide) (by decide)

/-! ## C6 -/

/-- Retry seconds following the claim's words: among the two windows, take
the exhausted ones (count at limit), compute each one's
`windowLength - (now - windowStart)`, and report the largest remaining
wait — the most exhausted window's.  The claim asserts this is what a deny
carries; the endpoint's visible code below carries something else. -/
def mostExhaustedRetry (L : RateLimits) (m h : Window) (now : Nat) : Nat :=
  ((if L.minuteLimit ≤ m.count then [remainingWait L.minuteLen now m] else []) ++
    (if L.hourLimit ≤ h.count then [remainingWait L.hourLen now h] else [])).foldl
    max 0

/-- Embedded from the `agent_stream_endpoint` 429 handler quoted verbatim in
`TESTING_INSTRUCTIONS.md`: the endpoint consults `rate_limiter.is_allowed`
(which returns only an allowed flag and a message string) and, on a deny,
responds 429 with the hard-coded `"retry_after": 60`; on an allow no retry
value is carried to the caller. -/
def endpointRetryAfter : CheckResult → Option Nat
  | .allow => none
  | .deny _ => some 60

/-- C6 counterexample: a deny 30 s into an exhausted minute window (length
60 s) carries `retry_after = 60` through the endpoint, while the claimed
`windowLength - (now - windowStart)` of the most exhausted window is 30 —
the carried value does not equal the claimed formula. -/
theorem endpoint_retry_hardcoded_ne_most_exhausted :
    (check ⟨2, 5, 60, 3600⟩ ⟨⟨2, 0⟩, ⟨2, 0⟩⟩ 30).1 = CheckResult.deny 30 ∧
      endpointRetryAfter (check ⟨2, 5, 60, 3600⟩ ⟨⟨2, 0⟩, ⟨2, 0⟩⟩ 30).1 =
        some 60 ∧
      mostExhaustedRetry ⟨2, 5, 60, 3600⟩ (resetWindow 60 30 ⟨2, 0⟩)
        (resetWindow 3600 30 ⟨2, 0⟩) 30 = 30 ∧
      (60 : Nat) ≠ 30 :=
  ⟨by decide, by decide, by decide, by decide⟩

/-- C6 (amended): whenever `check` denies, the `retryAfterSeconds` carried
to the caller in the 429 response is the hard-coded constant 60 — for every
identity, bucket state and deny time — not the remaining wait of the most
exhausted window. -/
theorem endpointRetryAfter_deny_constant (L : RateLimits) (b : RateBucket)
    (now r : Nat) (h : (check L b now).1 = CheckResult.deny r) :
    endpointRetryAfter (check L b now).1 = some 60 := by
  rw [h]
  rfl

/-- Witness for the amended C6 at a concrete denied bucket. -/
theorem endpointRetryAfter_deny_constant_witness :
    endpointRetryAfter (check ⟨2, 5, 60, 3600⟩ ⟨⟨2, 0⟩, ⟨2, 0⟩⟩ 30).1 =
      some 60 :=
  endpointRetryAfter_deny_constant ⟨2, 5, 60, 3600⟩ ⟨⟨2, 0⟩, ⟨2, 0⟩⟩ 30 30
    (by decide)

/-! ## Frontend stream model (from src/lib/types.ts and the useAgent hook) -/

/-- Intent labels of the wire protocol, from `types.ts`
(`'chat' | 'code'`). -/
inductive ClientIntent
  | chat
  | code
  deriving DecidableEq, Repr

/-- Events of the agent stream, from the `AgentStreamEvent` union in
`types.ts`.  The `unrecognized` constructor stands for a parsed JSON frame
whose `event` discriminant is none of the recognized strings: the consumer
obtains events from `JSON.parse` with an unchecked cast, so such values can
reach the dispatch at runtime. -/
inductive AgentStreamEvent
  | pipelineStarted
  | intentClassified (intent : ClientIntent)
  | chatChunk (content : String)
  | designStarted
  | designPhase (details : String)
  | designCompleted (files : List String)
  | codeStarted
  | codeFileStarted (file : String)
  | codeChunk (content : String) (file : String)
  | codeCompleted (filesGenerated : Option Nat) (error : Option String)
  | fileCreate (path : String)
  | fileChunk (path : String) (content : String)
  | fileNarrative (path : String) (narrative : String)
  | fileComplete (path : String)
  | pipelineCompleted
  | unrecognized (event : String)
  deriving DecidableEq, Repr

/-- Wire discriminant (`event` field) of a stream event. -/
def AgentStreamEvent.discriminant : AgentStreamEvent → String
  | .pipelineStarted => "pipeline.started"
  | .intentClassified _ => "intent.classified"
  | .chatChunk _ => "chat.chunk"
  | .designStarted => "design.started"
  | .designPhase _ => "design.phase"
  | .designCompleted _ => "design.completed"
  | .codeStarted => "code.started"
  | .codeFileStarted _ => "code.file_started"
  | .codeChunk _ _ => "code.chunk"
  | .codeCompleted _ _ => "code.completed"
  | .fileCreate _ => "file.create"
  | .fileChunk _ _ => "file.chunk"
  | .fileNarrative _ _ => "file.narrative"
  | .fileComplete _ => "file.complete"
  | .pipelineCompleted => "pipeline.completed"
  | .unrecognized s => s

/-- The discriminants enumerated by the `AgentStreamEvent` union of
`types.ts`. -/
def recognizedDiscriminants : List String :=
  ["pipeline.started", "intent.classified", "chat.chunk", "design.started",
   "design.phase", "design.completed", "code.started", "code.file_started",
   "code.chunk", "code.completed", "file.create", "file.chunk",
   "file.narrative", "file.complete", "pipeline.completed"]

/-! ## C4 — orchestrator artifact accumulation -/

/-- One step of the orchestrator's file accumulation, embedded from the
orchestrator code quoted in `IMPLEMENTATION_SUMMARY.md`: for every
`code.chunk` event, `file_contents[fp] = file_contents.get(fp, "") + content`;
any other event leaves the dict untouched.  The Python dict is modelled
extensionally as the total map from path to accumulated content, absent keys
carrying `""` as `dict.get(fp, "")` does. -/
def fileContentsStep (m : String → String) (e : AgentStreamEvent) : String → String :=
  match e with
  | .codeChunk content file => fun q => if q = file then m q ++ content else m q
  | _ => m

/-- Final committed content per path after the run: the accumulation folded
over the run's events starting from the empty dict. -/
def fileContents (evs : List AgentStreamEvent) : String → String :=
  evs.foldl fileContentsStep fun _ => ""

/-- The texts of all `code.chunk` (artifact delta) events for a path, in
emission order. -/
def deltaTexts (p : String) (evs : List AgentStreamEvent) : List String :=
  evs.filterMap fun e => match e with
    | .codeChunk content file => if file = p then some content else none
    | _ => none

/-- Concatenation of a list of texts in order. -/
def concatTexts : List String → String
  | [] => ""
  | s :: rest => s ++ concatTexts rest

lemma foldl_fileContentsStep (evs : List AgentStreamEvent)
    (m : String → String) (p : String) :
    evs.foldl fileContentsStep m p = m p ++ concatTexts (deltaTexts p evs) := by
  induction evs generalizing m with
  | nil => simp [deltaTexts, concatTexts, String.append_empty]
  | cons e evs ih =>
    cases e with
    | codeChunk c f =>
      rw [List.foldl_cons, ih]
      by_cases hpf : p = f
      · subst hpf
        rw [show fileContentsStep m (.codeChunk c p) p = m p ++ c by
          simp [fileContentsStep]]
        rw [show deltaTexts p (AgentStreamEvent.codeChunk c p :: evs) =
          c :: deltaTexts p evs by simp [deltaTexts]]
        rw [concatTexts, String.append_assoc]
      · have hfp : ¬ f = p := fun h => hpf h.symm
        rw [show fileContentsStep m (.codeChunk c f) p = m p by
          simp [fileContentsStep, hpf]]
        rw [show deltaTexts p (AgentStreamEvent.codeChunk c f :: evs) =
          deltaTexts p evs by simp [deltaTexts, hfp]]
    | pipelineStarted => rw [List.foldl_cons]; exact ih m
    | intentClassified i => rw [List.foldl_cons]; exact ih m
    | chatChunk c => rw [List.foldl_cons]; exact ih m
    | designStarted => rw [List.foldl_cons]; exact ih m
    | designPhase d => rw [List.foldl_cons]; exact ih m
    | designCompleted fs => rw [List.foldl_cons]; exact ih m
    | codeStarted => rw [List.foldl_cons]; exact ih m
    | codeFileStarted f => rw [List.foldl_cons]; exact ih m
    | codeCompleted n err => rw [List.foldl_cons]; exact ih m
    | fileCreate q => rw [List.foldl_cons]; exact ih m
    | fileChunk q c => rw [List.foldl_cons]; exact ih m
    | fileNarrative q n => rw [List.foldl_cons]; exact ih m
    | fileComplete q => rw [List.foldl_cons]; exact ih m
    | pipelineCompleted => rw [List.foldl_cons]; exact ih m
    | unrecognized s => rw [List.foldl_cons]; exact ih m

/-- C4: for every stream and every path, the final committed content of the
path's artifact equals the concatenation, in emission order, of the text
carried by all `code.chunk` (artifact delta) events for that path — no delta
text is lost and none is applied twice. -/
theorem fileContents_eq_concat_of_deltas (evs : List AgentStreamEvent)
    (p : String) : fileContents evs p = concatTexts (deltaTexts p evs) := by
  rw [fileContents, foldl_fileContentsStep]
  exact String.empty_append _

/-! ## useAgent hook model (from the useAgent source) -/

/-- Message kinds of `ConversationMessage` in `types.ts`
(`'user_prompt' | 'chat_response' | 'progress' | 'narrative'`). -/
inductive MessageType
  | userPrompt
  | chatResponse
  | progress
  | narrative
  deriving DecidableEq, Repr

/-- A conversation entry, from the `ConversationMessage` interface
(`type` is named `msgType` here because of Lean's field conventions). -/
structure ConversationMessage where
  id : String
  msgType : MessageType
  content : String
  timestamp : Nat
  deriving DecidableEq, Repr

/-- A narrative block of the hook's state
(`{ id: number; type: 'narrative'; content: string }`). -/
structure NarrativeBlock where
  id : Nat
  content : String
  deriving DecidableEq, Repr

/-- The `AgentState` of the hook, from `types.ts`.  The `files` Map is
modelled extensionally as a partial map from path to content, `none` for
absent keys. -/
structure AgentState where
  isStreaming : Bool
  intent : Option ClientIntent
  conversationHistory : List ConversationMessage
  currentChatMessage : String
  currentProgress : Option String
  narrativeBlocks : List NarrativeBlock
  files : String → Option String
  error : Option String
  activeFile : Option String

/-- The hook's `initialState`. -/
def initialState : AgentState :=
  ⟨false, none, [], "", none, [], fun _ => none, none, none⟩

/-- `Map.set`: point update of the extensional files map. -/
def mapSet (m : String → Option String) (k v : String) : String → Option String :=
  fun q => if q = k then some v else m q

/-- One step of the hook's event dispatch, embedded from the `switch` in
`sendMessage`'s stream loop.  The state threads the pair of the React state
and the local `accumulatedResponse`; `rid` is the local
`currentResponseId` and `now` the value of `Date.now()` at this event.  The
switch has no `default` case, so every unhandled discriminant — including
`pipeline.started`, `design.started`, `code.completed`, `file.complete` and
any unrecognized one — falls through and leaves the state unchanged. -/
def applyEvent (rid : String) (now : Nat) (st : AgentState × String) :
    AgentStreamEvent → AgentState × String
  | .intentClassified i => ({ st.1 with intent := some i }, st.2)
  | .chatChunk c =>
    if st.1.intent = some .chat then
      ({ st.1 with currentChatMessage := st.1.currentChatMessage ++ c }, st.2 ++ c)
    else st
  | .designPhase d =>
    if st.1.intent = some .code then
      if st.1.conversationHistory.any fun m => m.id == "progress-" ++ d then
        ({ st.1 with currentProgress := some d }, st.2)
      else
        ({ st.1 with
          currentProgress := some d
          conversationHistory := st.1.conversationHistory ++
            [⟨"progress-" ++ toString now, .progress, d, now⟩] }, st.2)
    else st
  | .designCompleted _ =>
    if st.1.intent = some .code then
      ({ st.1 with currentProgress := some "Design complete, generating code..." }, st.2)
    else st
  | .codeStarted =>
    if st.1.intent = some .code then
      ({ st.1 with currentProgress := some "Generating code..." }, st.2)
    else st
  | .codeFileStarted f =>
    ({ st.1 with files := mapSet st.1.files f "", activeFile := some f }, st.2)
  | .codeChunk c f =>
    ({ st.1 with files := mapSet st.1.files f ((st.1.files f).getD "" ++ c) }, st.2)
  | .fileCreate p =>
    ({ st.1 with files := mapSet st.1.files p "", activeFile := some p }, st.2)
  | .fileChunk p c =>
    ({ st.1 with files := mapSet st.1.files p ((st.1.files p).getD "" ++ c) }, st.2)
  | .fileNarrative _ n =>
    if st.1.intent = some .code then
      ({ st.1 with
        narrativeBlocks := st.1.narrativeBlocks ++ [⟨st.1.narrativeBlocks.length, n⟩]
        conversationHistory := st.1.conversationHistory ++
          [⟨"narrative-" ++ toString now ++ "-" ++ toString st.1.narrativeBlocks.length,
            .narrative, n, now⟩] }, st.2)
    else st
  | .pipelineCompleted =>
    if st.1.intent = some .chat ∧ st.2 ≠ "" then
      ({ st.1 with
        activeFile := none
        currentProgress := none
        conversationHistory := st.1.conversationHistory ++
          [⟨rid, .chatResponse, st.2, now⟩] }, st.2)
    else
      ({ st.1 with activeFile := none, currentProgress := none }, st.2)
  | _ => st

/-- The initial `setState` of `sendMessage`: mark streaming, append the user
prompt (id `msg-<Date.now()>`) to the conversation history, clear the
current chat message and progress. -/
def startState (s : AgentState) (msg : String) (t : Nat) : AgentState :=
  { s with
    isStreaming := true
    conversationHistory := s.conversationHistory ++
      [⟨"msg-" ++ toString t, .userPrompt, msg, t⟩]
    currentChatMessage := ""
    currentProgress := none }

/-- Outcome of the `fetch` in `sendMessage`: the connection throws, the
response has no body (the early `return`), or the stream delivers a list of
timestamped parsed events. -/
inductive FetchOutcome
  | connectError
  | noBody
  | streamed (events : List (Nat × AgentStreamEvent))

/-- The `sendMessage` function of the hook over one call: the initial
`setState`, then the outcome-dependent processing (`try`/`catch`), then the
`finally` block that clears `isStreaming`. -/
def sendMessage (s : AgentState) (msg : String) (t : Nat)
    (outcome : FetchOutcome) : AgentState :=
  let s1 := startState s msg t
  let rid := "response-" ++ toString t
  let s2 := match outcome with
    | .noBody => s1
    | .streamed evs =>
      (evs.foldl (fun st (te : Nat × AgentStreamEvent) => applyEvent rid te.1 st te.2)
        (s1, "")).1
    | .connectError => { s1 with error := some "Failed to connect to the agent service." }
  { s2 with isStreaming := false }

/-! ## C8 -/

/-- C8 counterexample: an event whose discriminant is outside the recognized
vocabulary is silently dropped by the consumer's dispatch — the state is
returned unchanged, with no `ProtocolViolation` result and not even the
`error` field touched — refuting the claim that an unrecognized discriminant
always produces an explicit `ProtocolViolation` and is never dropped without
effect. -/
theorem unrecognized_event_silently_dropped :
    AgentStreamEvent.discriminant (.unrecognized "bogus.event") ∉
        recognizedDiscriminants ∧
      applyEvent "resp" 0 (initialState, "") (.unrecognized "bogus.event") =
        (initialState, "") :=
  ⟨by decide, rfl⟩

/-- C8 (amended): when the consumer receives an event whose discriminant is
not one of the recognized variants, its dispatch (a `switch` with no
`default` case) leaves the state entirely unchanged: the event is silently
ignored and no `ProtocolViolation` result of any kind is produced. -/
theorem applyEvent_unrecognized_no_effect (rid : String) (now : Nat)
    (st : AgentState × String) (d : String)
    (h : d ∉ recognizedDiscriminants) :
    applyEvent rid now st (.unrecognized d) = st :=
  rfl

/-- Witness for the amended C8 at a concrete unrecognized discriminant. -/
theorem applyEvent_unrecognized_no_effect_witness :
    "file.persisted" ∉ recognizedDiscriminants ∧
      applyEvent "resp" 7 (initialState, "acc") (.unrecognized "file.persisted") =
        (initialState, "acc") :=
  ⟨by decide,
   applyEvent_unrecognized_no_effect "resp" 7 (initialState, "acc")
     "file.persisted" (by decide)⟩

/-! ## C9 -/

/-- C9: after every `sendMessage` invocation completes — stream finished,
response body absent, or the connection threw — the hook's state has
`isStreaming = false`: the `finally` block always clears the flag. -/
theorem sendMessage_clears_isStreaming (s : AgentState) (msg : String)
    (t : Nat) (outcome : FetchOutcome) :
    (sendMessage s msg t outcome).isStreaming = false :=
  rfl

/-! ## C10 -/

lemma applyEvent_history_extends (rid : String) (now : Nat)
    (st : AgentState × String) (e : AgentStreamEvent) :
    st.1.conversationHistory <+: (applyEvent rid now st e).1.conversationHistory := by
  cases e <;> simp only [applyEvent] <;>
    first
      | exact List.prefix_rfl
      | (split <;>
          first
            | exact List.prefix_rfl
            | exact List.prefix_append _ _
            | (split <;>
                first
                  | exact List.prefix_rfl
                  | exact List.prefix_append _ _))

lemma foldl_applyEvent_history (rid : String)
    (evs : List (Nat × AgentStreamEvent)) (st : AgentState × String) :
    st.1.conversationHistory <+:
      (evs.foldl (fun a (te : Nat × AgentStreamEvent) => applyEvent rid te.1 a te.2)
        st).1.conversationHistory := by
  induction evs generalizing st with
  | nil => exact List.prefix_rfl
  | cons te evs ih =>
    rw [List.foldl_cons]
    exact (applyEvent_history_extends rid te.1 st te.2).trans (ih _)

/-- C10: the conversation history is append-only across a `sendMessage`
call — the user's prompt is appended before any network interaction, and
whatever the outcome (stream, missing body, or connection error) every entry
present after the initial append, the prompt included, is still present in
order when the call returns. -/
theorem sendMessage_history_append_only (s : AgentState) (msg : String)
    (t : Nat) (outcome : FetchOutcome) :
    (s.conversationHistory ++ [⟨"msg-" ++ toString t, .userPrompt, msg, t⟩]) <+:
      (sendMessage s msg t outcome).conversationHistory := by
  cases outcome with
  | connectError => exact List.prefix_rfl
  | noBody => exact List.prefix_rfl
  | streamed evs =>
    exact foldl_applyEvent_history ("response-" ++ toString t) evs
      (startState s msg t, "")
